import Mathlib

/-!
# DESIP register-access layer

Shallow embedding of `hw/ip_repo/desip_1.0/drivers/desip_v1_0/src/desip.h`:
the sixteen register offsets, the two register accessors `DESIP_mWriteReg`
and `DESIP_mReadReg`, and the self-test routine `DESIP_Reg_SelfTest` that the
header declares.

Machine words are natural numbers; 32-bit wrap-around is written out as
`% 4294967296` (4294967296 = 2^32).
-/

namespace DESIP

/-! ## Register offsets (desip.h, lines 10-25) -/

def DESIP_S00_AXI_SLV_REG0_OFFSET : Nat := 0
def DESIP_S00_AXI_SLV_REG1_OFFSET : Nat := 4
def DESIP_S00_AXI_SLV_REG2_OFFSET : Nat := 8
def DESIP_S00_AXI_SLV_REG3_OFFSET : Nat := 12
def DESIP_S00_AXI_SLV_REG4_OFFSET : Nat := 16
def DESIP_S00_AXI_SLV_REG5_OFFSET : Nat := 20
def DESIP_S00_AXI_SLV_REG6_OFFSET : Nat := 24
def DESIP_S00_AXI_SLV_REG7_OFFSET : Nat := 28
def DESIP_S00_AXI_SLV_REG8_OFFSET : Nat := 32
def DESIP_S00_AXI_SLV_REG9_OFFSET : Nat := 36
def DESIP_S00_AXI_SLV_REG10_OFFSET : Nat := 40
def DESIP_S00_AXI_SLV_REG11_OFFSET : Nat := 44
def DESIP_S00_AXI_SLV_REG12_OFFSET : Nat := 48
def DESIP_S00_AXI_SLV_REG13_OFFSET : Nat := 52
def DESIP_S00_AXI_SLV_REG14_OFFSET : Nat := 56
def DESIP_S00_AXI_SLV_REG15_OFFSET : Nat := 60

/-- The offset table: the sixteen `DESIP_S00_AXI_SLV_REG<n>_OFFSET` defines of
desip.h in declaration order, entry `n` being the define of register `n`. -/
def regOffsets : List Nat :=
  [DESIP_S00_AXI_SLV_REG0_OFFSET, DESIP_S00_AXI_SLV_REG1_OFFSET,
   DESIP_S00_AXI_SLV_REG2_OFFSET, DESIP_S00_AXI_SLV_REG3_OFFSET,
   DESIP_S00_AXI_SLV_REG4_OFFSET, DESIP_S00_AXI_SLV_REG5_OFFSET,
   DESIP_S00_AXI_SLV_REG6_OFFSET, DESIP_S00_AXI_SLV_REG7_OFFSET,
   DESIP_S00_AXI_SLV_REG8_OFFSET, DESIP_S00_AXI_SLV_REG9_OFFSET,
   DESIP_S00_AXI_SLV_REG10_OFFSET, DESIP_S00_AXI_SLV_REG11_OFFSET,
   DESIP_S00_AXI_SLV_REG12_OFFSET, DESIP_S00_AXI_SLV_REG13_OFFSET,
   DESIP_S00_AXI_SLV_REG14_OFFSET, DESIP_S00_AXI_SLV_REG15_OFFSET]

/-! ## Machine words -/

/-- The C conversion `(u32)(x)` of an integer of any width: reduction modulo
2^32 into the range `0 .. 2^32 - 1`. -/
def u32 (x : Int) : Nat := (x % 4294967296).toNat

/-! ## The bus primitives -/

/-- Modelled from the spec: the platform capability pair
`write32(address, u32)` / `read32(address) -> u32`, which desip.h calls
`Xil_Out32` and `Xil_In32`; their header is not among the sources, so they are
a parameter. `σ` is the state of the device behind the bus. A write changes
the device state; a read returns a word and may change the device state too
(a register may, for instance, clear status bits when read). -/
structure Bus (σ : Type) where
  Xil_Out32 : Nat → Nat → σ → σ
  Xil_In32 : Nat → σ → Nat × σ

/-! ## Register accessors (desip.h, lines 46-47 and 66-67) -/

/-- `DESIP_mWriteReg(BaseAddress, RegOffset, Data)` expands to
`Xil_Out32((BaseAddress) + (RegOffset), (u32)(Data))`. Under the documented
signature `(u32 BaseAddress, unsigned RegOffset, u32 Data)` the sum is taken
in 32-bit unsigned arithmetic. -/
def DESIP_mWriteReg {σ : Type} (bus : Bus σ) (BaseAddress RegOffset : Nat) (Data : Int)
    (s : σ) : σ :=
  bus.Xil_Out32 ((BaseAddress + RegOffset) % 4294967296) (u32 Data) s

/-- `DESIP_mReadReg(BaseAddress, RegOffset)` expands to
`Xil_In32((BaseAddress) + (RegOffset))`; documented signature
`u32 DESIP_mReadReg(u32 BaseAddress, unsigned RegOffset)`. -/
def DESIP_mReadReg {σ : Type} (bus : Bus σ) (BaseAddress RegOffset : Nat) (s : σ) : Nat × σ :=
  bus.Xil_In32 ((BaseAddress + RegOffset) % 4294967296) s

/-! ## Devices -/

/-- One bus transaction as seen from outside: a 32-bit write of `data` to
`addr`, or a 32-bit read from `addr` that returned `value`. -/
inductive BusOp where
  | write (addr data : Nat)
  | read (addr value : Nat)
  deriving DecidableEq

/-- Address of a bus transaction. -/
def BusOp.addr : BusOp → Nat
  | .write a _ => a
  | .read a _ => a

/-- Whether a bus transaction is a write. -/
def BusOp.isWrite : BusOp → Bool
  | .write _ _ => true
  | .read _ _ => false

/-- A bus analyser in front of a device: behaves exactly like `bus` and
appends every transaction to a log. -/
def traced {σ : Type} (bus : Bus σ) : Bus (σ × List BusOp) where
  Xil_Out32 a d s := (bus.Xil_Out32 a d s.1, s.2 ++ [BusOp.write a d])
  Xil_In32 a s :=
    ((bus.Xil_In32 a s.1).1, ((bus.Xil_In32 a s.1).2, s.2 ++ [BusOp.read a (bus.Xil_In32 a s.1).1]))

/-- Contents of a fault-free simulated device: a store from addresses to words. -/
abbrev Store := Nat → Nat

/-- Modelled from the spec: the fault-free simulated device, where
`Xil_Out32` is a store into the addressed word and `Xil_In32` is a load that
leaves the store as it is. -/
def faultFree : Bus Store where
  Xil_Out32 a d m := fun x => if x = a then d else m x
  Xil_In32 a m := (m a, m)

/-- Modelled from the spec: the two-valued result `{Success, Failure}` of the
self-test. Its C type `XStatus` and the constants come from xstatus.h, which is
not among the sources; desip.h (lines 82-83) documents `XST_SUCCESS` "if all
self-test code passed" and `XST_FAILURE` "if any self-test code failed". -/
inductive XStatus where
  | XST_SUCCESS
  | XST_FAILURE
  deriving DecidableEq

open XStatus

/-- Modelled from the spec: one write-then-verify step of the self-test at
offset `o` with test pattern `p`: write the pattern word, read the same offset
back at once, and compare with the word just written. A mismatch turns the
running status into `XST_FAILURE`; the sweep goes on (each pattern/offset pair
is tested exactly once, no retries). -/
def verifyStep {σ : Type} (bus : Bus σ) (baseaddr o : Nat) (p : Nat → Nat)
    (acc : XStatus × σ) : XStatus × σ :=
  let s1 := DESIP_mWriteReg bus baseaddr o (p o) acc.2
  let r := DESIP_mReadReg bus baseaddr o s1
  (if r.1 = u32 (p o) then acc.1 else XST_FAILURE, r.2)

/-- Modelled from the spec: all test patterns applied to one offset, in order. -/
def testRegister {σ : Type} (bus : Bus σ) (baseaddr o : Nat) :
    List (Nat → Nat) → XStatus × σ → XStatus × σ
  | [], acc => acc
  | p :: ps, acc => testRegister bus baseaddr o ps (verifyStep bus baseaddr o p acc)

/-- Modelled from the spec: the sweep over a list of offsets. -/
def sweep {σ : Type} (bus : Bus σ) (baseaddr : Nat) (patterns : List (Nat → Nat)) :
    List Nat → XStatus × σ → XStatus × σ
  | [], acc => acc
  | o :: os, acc => sweep bus baseaddr patterns os (testRegister bus baseaddr o patterns acc)

/-- Modelled from the spec: `XStatus DESIP_Reg_SelfTest(void * baseaddr_p)`,
whose body is not among the sources (desip.h only declares it). Following the
spec's section 4.2: for each of the 16 offsets of the table, each test pattern
is written and read back at once at the same offset and compared; the result
is `XST_SUCCESS` only if every register passes every applied pattern. The
test vectors are left to the implementer by the spec, so they are the
parameter `patterns`; a pattern maps the offset to the word to write (a
constant function for a fixed word such as 0xFFFFFFFF, the identity for the
address-derived pattern "offset itself"). The routine returns the status
together with the device state it leaves behind (the test is destructive). -/
def DESIP_Reg_SelfTest {σ : Type} (bus : Bus σ) (patterns : List (Nat → Nat))
    (baseaddr_p : Nat) (s : σ) : XStatus × σ :=
  sweep bus baseaddr_p patterns regOffsets (XST_SUCCESS, s)

/-- The (offset, pattern) pairs of the sweep in execution order. -/
def jobs (patterns : List (Nat → Nat)) (offsets : List Nat) : List (Nat × (Nat → Nat)) :=
  offsets.flatMap (fun o => patterns.map (fun p => (o, p)))

/-- The write-then-verify steps of a list of (offset, pattern) pairs, in order. -/
def runJobs {σ : Type} (bus : Bus σ) (baseaddr : Nat) :
    List (Nat × (Nat → Nat)) → XStatus × σ → XStatus × σ
  | [], acc => acc
  | j :: js, acc => runJobs bus baseaddr js (verifyStep bus baseaddr j.1 j.2 acc)

/-- The two bus transactions of one round trip: the write of pattern `jv.1.2`
at offset `jv.1.1`, then the read at the same address that returned `jv.2`. -/
def tripOps (baseaddr : Nat) (jv : (Nat × (Nat → Nat)) × Nat) : List BusOp :=
  [BusOp.write ((baseaddr + jv.1.1) % 4294967296) (u32 (jv.1.2 jv.1.1)),
   BusOp.read ((baseaddr + jv.1.1) % 4294967296) jv.2]

/-- The write transaction of the round trip of pattern `j.2` at offset `j.1`. -/
def writeOp (baseaddr : Nat) (j : Nat × (Nat → Nat)) : BusOp :=
  BusOp.write ((baseaddr + j.1) % 4294967296) (u32 (j.2 j.1))

/-! ## Facts about the offset table -/

theorem regOffsets_eq : regOffsets = (List.range 16).map (fun n => 4 * n) := by
  decide

theorem regOffsets_getElem_some (n o : Nat) :
    regOffsets[n]? = some o ↔ n < 16 ∧ o = 4 * n := by
  rw [regOffsets_eq, List.getElem?_map]
  by_cases h : n < 16
  · rw [List.getElem?_range h]
    simp only [Option.map_some', Option.some.injEq]
    constructor
    · intro e; exact ⟨h, e.symm⟩
    · intro e; exact e.2.symm
  · rw [List.getElem?_eq_none (by simpa using h)]
    simp [h]

theorem mem_regOffsets (o : Nat) : o ∈ regOffsets ↔ o % 4 = 0 ∧ o ≤ 60 := by
  rw [regOffsets_eq, List.mem_map]
  constructor
  · rintro ⟨n, hn, rfl⟩
    rw [List.mem_range] at hn
    omega
  · rintro ⟨h4, h60⟩
    exact ⟨o / 4, List.mem_range.mpr (by omega), by omega⟩

/-- Distinct table offsets give distinct 32-bit register addresses, at least
four bytes apart, whatever the base and even across the 2^32 wrap-around. -/
theorem regAddr_apart (base oi oj : Nat) (hi : oi ∈ regOffsets) (hj : oj ∈ regOffsets)
    (hne : oi ≠ oj) :
    (base + oi) % 4294967296 ≠ (base + oj) % 4294967296 ∧
    4 ≤ ((base + oi) % 4294967296 + 4294967296 - (base + oj) % 4294967296) % 4294967296 ∧
    4 ≤ ((base + oj) % 4294967296 + 4294967296 - (base + oi) % 4294967296) % 4294967296 := by
  rw [mem_regOffsets] at hi hj
  omega

/-! ## The offset table (claims C5, C8) -/

/-- Claim C5: the register offset table has exactly 16 entries, the define
`DESIP_S00_AXI_SLV_REG<n>_OFFSET` equals `4 * n` for every `n` in 0..15 (each
define separately, and as entry `n` of the table), every offset is a multiple
of 4, the smallest offset is 0 and the largest is 60. -/
theorem C5_offset_table :
    regOffsets.length = 16 ∧
    (DESIP_S00_AXI_SLV_REG0_OFFSET = 4 * 0 ∧ DESIP_S00_AXI_SLV_REG1_OFFSET = 4 * 1 ∧
     DESIP_S00_AXI_SLV_REG2_OFFSET = 4 * 2 ∧ DESIP_S00_AXI_SLV_REG3_OFFSET = 4 * 3 ∧
     DESIP_S00_AXI_SLV_REG4_OFFSET = 4 * 4 ∧ DESIP_S00_AXI_SLV_REG5_OFFSET = 4 * 5 ∧
     DESIP_S00_AXI_SLV_REG6_OFFSET = 4 * 6 ∧ DESIP_S00_AXI_SLV_REG7_OFFSET = 4 * 7 ∧
     DESIP_S00_AXI_SLV_REG8_OFFSET = 4 * 8 ∧ DESIP_S00_AXI_SLV_REG9_OFFSET = 4 * 9 ∧
     DESIP_S00_AXI_SLV_REG10_OFFSET = 4 * 10 ∧ DESIP_S00_AXI_SLV_REG11_OFFSET = 4 * 11 ∧
     DESIP_S00_AXI_SLV_REG12_OFFSET = 4 * 12 ∧ DESIP_S00_AXI_SLV_REG13_OFFSET = 4 * 13 ∧
     DESIP_S00_AXI_SLV_REG14_OFFSET = 4 * 14 ∧ DESIP_S00_AXI_SLV_REG15_OFFSET = 4 * 15) ∧
    (∀ n : Nat, n < 16 → regOffsets[n]? = some (4 * n)) ∧
    (∀ o ∈ regOffsets, o % 4 = 0 ∧ 0 ≤ o ∧ o ≤ 60) ∧
    0 ∈ regOffsets ∧ 60 ∈ regOffsets := by
  refine ⟨by decide, by decide, ?_, ?_, by decide, by decide⟩
  · intro n hn
    exact (regOffsets_getElem_some n (4 * n)).mpr ⟨hn, rfl⟩
  · intro o ho
    have h := (mem_regOffsets o).mp ho
    omega

/-- Claim C8: the 16 registers are contiguous 32-bit words. The 4-byte ranges
`[off, off + 4)` of two different table entries are disjoint; a byte offset `b`
lies in the range of some table entry exactly when `b < 64`; and a byte offset
`b < 64` lies in the range of register `n` exactly when `n = b / 4`, a register
that exists in the table. -/
theorem C8_registers_contiguous :
    (∀ i j oi oj : Nat, regOffsets[i]? = some oi → regOffsets[j]? = some oj → i ≠ j →
        ∀ b, ¬ ((oi ≤ b ∧ b < oi + 4) ∧ (oj ≤ b ∧ b < oj + 4))) ∧
    (∀ b, (∃ o ∈ regOffsets, o ≤ b ∧ b < o + 4) ↔ b < 64) ∧
    (∀ b : Nat, b < 64 →
        (∃ o, regOffsets[b / 4]? = some o ∧ o ≤ b ∧ b < o + 4) ∧
        (∀ n o : Nat, regOffsets[n]? = some o → ((o ≤ b ∧ b < o + 4) ↔ n = b / 4))) := by
  refine ⟨?_, ?_, ?_⟩
  · intro i j oi oj hi hj hne b
    rw [regOffsets_getElem_some] at hi hj
    omega
  · intro b
    constructor
    · rintro ⟨o, ho, h1, h2⟩
      rw [mem_regOffsets] at ho
      omega
    · intro hb
      exact ⟨4 * (b / 4), (mem_regOffsets _).mpr (by omega), by omega, by omega⟩
  · intro b hb
    refine ⟨⟨4 * (b / 4), (regOffsets_getElem_some _ _).mpr ⟨by omega, rfl⟩, by omega, by omega⟩, ?_⟩
    intro n o hn
    rw [regOffsets_getElem_some] at hn
    omega

/-! ## The register accessors (claims C2, C3, C4, C9, C10) -/

theorem u32_of_lt (v : Nat) (hv : v < 4294967296) : u32 (v : Int) = v := by
  unfold u32
  omega

theorem u32_lt (x : Int) : u32 x < 4294967296 := by
  unfold u32
  omega

theorem u32_cast (x : Int) : ((u32 x : Nat) : Int) = x % 4294967296 := by
  unfold u32
  omega

/-- Claim C2: on the fault-free device (a store from addresses to words, with
`Xil_Out32` the store and `Xil_In32` the load), for every base address, every
offset `o` of the table and every 32-bit value `v`, `DESIP_mReadReg(base, o)`
evaluated immediately after `DESIP_mWriteReg(base, o, v)` returns exactly `v`. -/
theorem C2_read_after_write (base o v : Nat) (m : Store)
    (_ho : o ∈ regOffsets) (hv : v < 4294967296) :
    (DESIP_mReadReg faultFree base o (DESIP_mWriteReg faultFree base o (v : Int) m)).1 = v := by
  simp [DESIP_mReadReg, DESIP_mWriteReg, faultFree, u32_of_lt v hv]

theorem C2_read_after_write_witness :
    60 ∈ regOffsets ∧ 2779096485 < 4294967296 ∧
    (DESIP_mReadReg faultFree 1073741824 60
      (DESIP_mWriteReg faultFree 1073741824 60 ((2779096485 : Nat) : Int) (fun _ => 0))).1
      = 2779096485 :=
  ⟨by decide, by decide,
   C2_read_after_write 1073741824 60 2779096485 (fun _ => 0) (by decide) (by decide)⟩

/-- Claim C3: for every base address `B`, offset `O` and 32-bit value `V`,
`DESIP_mWriteReg(B, O, V)` issues exactly one bus transaction, a 32-bit write
to address `B + O` (the sum taken in 32-bit unsigned arithmetic) with data `V`:
behind a bus analyser the log grows by exactly that one write, and the device
receives exactly that write. -/
theorem C3_write_one_access {σ : Type} (bus : Bus σ) (B O V : Nat) (s : σ) (log : List BusOp)
    (hV : V < 4294967296) :
    DESIP_mWriteReg (traced bus) B O (V : Int) (s, log) =
      (bus.Xil_Out32 ((B + O) % 4294967296) V s,
       log ++ [BusOp.write ((B + O) % 4294967296) V]) := by
  simp [DESIP_mWriteReg, traced, u32_of_lt V hV]

theorem C3_write_one_access_witness :
    305419896 < 4294967296 ∧
    DESIP_mWriteReg (traced faultFree) 4294967292 8 ((305419896 : Nat) : Int) (fun _ => 0, []) =
      (faultFree.Xil_Out32 ((4294967292 + 8) % 4294967296) 305419896 (fun _ => 0),
       [] ++ [BusOp.write ((4294967292 + 8) % 4294967296) 305419896]) :=
  ⟨by decide, C3_write_one_access faultFree 4294967292 8 305419896 (fun _ => 0) [] (by decide)⟩

/-- Claim C4: for every base address `B` and offset `O`, `DESIP_mReadReg(B, O)`
returns the value that the read primitive `Xil_In32` yields for address `B + O`
(32-bit sum) and touches no other address: behind a bus analyser the log grows
by exactly one read, at that address; and on the fault-free store the result
depends on the content of that address only. -/
theorem C4_read_one_access {σ : Type} (bus : Bus σ) (B O : Nat) (s : σ) (log : List BusOp) :
    (DESIP_mReadReg bus B O s).1 = (bus.Xil_In32 ((B + O) % 4294967296) s).1 ∧
    DESIP_mReadReg (traced bus) B O (s, log) =
      ((bus.Xil_In32 ((B + O) % 4294967296) s).1,
       ((bus.Xil_In32 ((B + O) % 4294967296) s).2,
        log ++ [BusOp.read ((B + O) % 4294967296) (bus.Xil_In32 ((B + O) % 4294967296) s).1])) ∧
    (∀ m m2 : Store, m ((B + O) % 4294967296) = m2 ((B + O) % 4294967296) →
      (DESIP_mReadReg faultFree B O m).1 = (DESIP_mReadReg faultFree B O m2).1) := by
  refine ⟨rfl, rfl, ?_⟩
  intro m m2 h
  simpa [DESIP_mReadReg, faultFree] using h

/-- Claim C9: `DESIP_mWriteReg` performs a 32-bit write. For every base, offset
and integer `Data` of any width (negative values included) the value handed to
the write primitive is `Data` converted to u32: it is below 2^32, it equals
`Data mod 2^32`, and it equals `Data` whenever `0 <= Data < 2^32`. -/
theorem C9_write_truncates {σ : Type} (bus : Bus σ) (B O : Nat) (Data : Int) (s : σ)
    (log : List BusOp) :
    ∃ d : Nat,
      DESIP_mWriteReg (traced bus) B O Data (s, log) =
        (bus.Xil_Out32 ((B + O) % 4294967296) d s,
         log ++ [BusOp.write ((B + O) % 4294967296) d]) ∧
      d < 4294967296 ∧ (d : Int) = Data % 4294967296 ∧
      (0 ≤ Data → Data < 4294967296 → (d : Int) = Data) := by
  refine ⟨u32 Data, rfl, u32_lt Data, u32_cast Data, ?_⟩
  intro h0 h1
  rw [u32_cast]
  omega

/-- Claim C10: register independence on the fault-free device. For every base
address, two distinct table offsets `oi`, `oj` and every value `v`,
`DESIP_mWriteReg(base, oi, v)` leaves the value returned by
`DESIP_mReadReg(base, oj)` unchanged, also when `base + offset` wraps around
modulo 2^32: the two register addresses are distinct and at least 4 bytes
apart in both directions around the 32-bit address space. -/
theorem C10_register_independence (base oi oj : Nat) (v : Int) (m : Store)
    (hi : oi ∈ regOffsets) (hj : oj ∈ regOffsets) (hne : oi ≠ oj) :
    (DESIP_mReadReg faultFree base oj (DESIP_mWriteReg faultFree base oi v m)).1 =
      (DESIP_mReadReg faultFree base oj m).1 ∧
    (base + oi) % 4294967296 ≠ (base + oj) % 4294967296 ∧
    4 ≤ ((base + oi) % 4294967296 + 4294967296 - (base + oj) % 4294967296) % 4294967296 ∧
    4 ≤ ((base + oj) % 4294967296 + 4294967296 - (base + oi) % 4294967296) % 4294967296 := by
  have h := regAddr_apart base oi oj hi hj hne
  refine ⟨?_, h⟩
  have hne2 : (base + oj) % 4294967296 ≠ (base + oi) % 4294967296 := fun e => h.1 e.symm
  simp [DESIP_mReadReg, DESIP_mWriteReg, faultFree, hne2]

theorem C10_register_independence_witness :
    0 ∈ regOffsets ∧ 4 ∈ regOffsets ∧ 0 ≠ 4 ∧
    (DESIP_mReadReg faultFree 4294967292 4
        (DESIP_mWriteReg faultFree 4294967292 0 4294967295 (fun _ => 7))).1 =
      (DESIP_mReadReg faultFree 4294967292 4 (fun _ => 7)).1 ∧
    (4294967292 + 0) % 4294967296 ≠ (4294967292 + 4) % 4294967296 ∧
    4 ≤ ((4294967292 + 0) % 4294967296 + 4294967296 - (4294967292 + 4) % 4294967296)
          % 4294967296 ∧
    4 ≤ ((4294967292 + 4) % 4294967296 + 4294967296 - (4294967292 + 0) % 4294967296)
          % 4294967296 :=
  ⟨by decide, by decide, by decide,
   C10_register_independence 4294967292 0 4 4294967295 (fun _ => 7)
     (by decide) (by decide) (by decide)⟩

/-! ## The self-test sweep as a run over (offset, pattern) pairs -/

theorem runJobs_append {σ : Type} (bus : Bus σ) (base : Nat)
    (js ks : List (Nat × (Nat → Nat))) (acc : XStatus × σ) :
    runJobs bus base (js ++ ks) acc = runJobs bus base ks (runJobs bus base js acc) := by
  induction js generalizing acc with
  | nil => rfl
  | cons j js ih => exact ih _

theorem testRegister_eq_runJobs {σ : Type} (bus : Bus σ) (base o : Nat)
    (ps : List (Nat → Nat)) (acc : XStatus × σ) :
    testRegister bus base o ps acc = runJobs bus base (ps.map (fun p => (o, p))) acc := by
  induction ps generalizing acc with
  | nil => rfl
  | cons p ps ih => simp only [List.map_cons, runJobs, testRegister, ih]

theorem sweep_eq_runJobs {σ : Type} (bus : Bus σ) (base : Nat) (patterns : List (Nat → Nat))
    (offs : List Nat) (acc : XStatus × σ) :
    sweep bus base patterns offs acc = runJobs bus base (jobs patterns offs) acc := by
  induction offs generalizing acc with
  | nil => rfl
  | cons o os ih =>
    simp only [sweep, jobs, List.flatMap_cons, runJobs_append, testRegister_eq_runJobs]
    exact ih _

theorem selfTest_eq_runJobs {σ : Type} (bus : Bus σ) (patterns : List (Nat → Nat))
    (base : Nat) (s : σ) :
    DESIP_Reg_SelfTest bus patterns base s =
      runJobs bus base (jobs patterns regOffsets) (XST_SUCCESS, s) :=
  sweep_eq_runJobs bus base patterns regOffsets _

theorem jobs_length (patterns : List (Nat → Nat)) (offs : List Nat) :
    (jobs patterns offs).length = offs.length * patterns.length := by
  induction offs with
  | nil => simp [jobs]
  | cons o os ih =>
    simp only [jobs, List.flatMap_cons, List.length_append, List.length_map,
      List.length_cons] at ih ⊢
    rw [ih]; ring

theorem mem_jobs (patterns : List (Nat → Nat)) (offs : List Nat) (j : Nat × (Nat → Nat)) :
    j ∈ jobs patterns offs ↔ j.1 ∈ offs ∧ j.2 ∈ patterns := by
  simp only [jobs, List.mem_flatMap, List.mem_map]
  constructor
  · rintro ⟨o, ho, p, hp, rfl⟩
    exact ⟨ho, hp⟩
  · rintro ⟨h1, h2⟩
    exact ⟨j.1, h1, j.2, h2, rfl⟩

theorem verifyStep_traced {σ : Type} (bus : Bus σ) (base o : Nat) (p : Nat → Nat)
    (st : XStatus) (s : σ) (log : List BusOp) :
    verifyStep (traced bus) base o p (st, (s, log)) =
      ((verifyStep bus base o p (st, s)).1,
       ((verifyStep bus base o p (st, s)).2,
        log ++ tripOps base ((o, p), (DESIP_mReadReg bus base o
          (DESIP_mWriteReg bus base o (p o) s)).1))) := by
  simp [verifyStep, DESIP_mWriteReg, DESIP_mReadReg, traced, tripOps]

theorem verifyStep_status {σ : Type} (bus : Bus σ) (base o : Nat) (p : Nat → Nat)
    (st : XStatus) (s : σ) :
    (verifyStep bus base o p (st, s)).1 = XST_SUCCESS ↔
      st = XST_SUCCESS ∧
      (DESIP_mReadReg bus base o (DESIP_mWriteReg bus base o (p o) s)).1 = u32 (p o) := by
  simp only [verifyStep]
  split <;> simp_all

/-- The analyser is transparent: status and device state are those of the
run without it. -/
theorem runJobs_traced_run {σ : Type} (bus : Bus σ) (base : Nat)
    (js : List (Nat × (Nat → Nat))) (st : XStatus) (s : σ) (log : List BusOp) :
    (runJobs (traced bus) base js (st, (s, log))).1 = (runJobs bus base js (st, s)).1 ∧
    (runJobs (traced bus) base js (st, (s, log))).2.1 = (runJobs bus base js (st, s)).2 := by
  induction js generalizing st s log with
  | nil => exact ⟨rfl, rfl⟩
  | cons j js ih =>
    simp only [runJobs, verifyStep_traced]
    exact ih _ _ _

/-- The log of a run is a sequence of round trips, one per job in order, and
the status is success exactly when it was so before and every round trip
read back the word written. -/
theorem runJobs_traced_log {σ : Type} (bus : Bus σ) (base : Nat)
    (js : List (Nat × (Nat → Nat))) (st : XStatus) (s : σ) (log : List BusOp) :
    ∃ vs : List Nat, vs.length = js.length ∧
      (runJobs (traced bus) base js (st, (s, log))).2.2 =
        log ++ (List.zip js vs).flatMap (tripOps base) ∧
      ((runJobs (traced bus) base js (st, (s, log))).1 = XST_SUCCESS ↔
        st = XST_SUCCESS ∧ ∀ jv ∈ List.zip js vs, jv.2 = u32 (jv.1.2 jv.1.1)) := by
  induction js generalizing st s log with
  | nil => exact ⟨[], rfl, by simp [runJobs], by simp [runJobs]⟩
  | cons j js ih =>
    obtain ⟨vs, hlen, hlog, hst⟩ := ih (verifyStep bus base j.1 j.2 (st, s)).1
      (verifyStep bus base j.1 j.2 (st, s)).2
      (log ++ tripOps base ((j.1, j.2), (DESIP_mReadReg bus base j.1
          (DESIP_mWriteReg bus base j.1 (j.2 j.1) s)).1))
    refine ⟨(DESIP_mReadReg bus base j.1 (DESIP_mWriteReg bus base j.1 (j.2 j.1) s)).1 :: vs,
      by simp [hlen], ?_, ?_⟩
    · simp only [runJobs, verifyStep_traced, hlog, List.zip_cons_cons, List.flatMap_cons,
        List.append_assoc]
    · simp only [runJobs, verifyStep_traced, hst, verifyStep_status, List.zip_cons_cons,
        List.mem_cons, forall_eq_or_imp, and_assoc]

/-- The writes of a run, in order, are the writes of its jobs. -/
theorem runJobs_traced_writes {σ : Type} (bus : Bus σ) (base : Nat)
    (js : List (Nat × (Nat → Nat))) (st : XStatus) (s : σ) (log : List BusOp) :
    (runJobs (traced bus) base js (st, (s, log))).2.2.filter BusOp.isWrite =
      log.filter BusOp.isWrite ++ js.map (writeOp base) := by
  induction js generalizing st s log with
  | nil => simp [runJobs]
  | cons j js ih =>
    simp only [runJobs, verifyStep_traced, ih, tripOps, List.filter_append, List.map_cons,
      List.append_assoc]
    simp [BusOp.isWrite, writeOp, List.filter_cons]

/-- Every transaction of a run is at the address of one of its jobs. -/
theorem runJobs_traced_addr {σ : Type} (bus : Bus σ) (base : Nat)
    (js : List (Nat × (Nat → Nat))) (st : XStatus) (s : σ) (log : List BusOp) :
    ∀ e ∈ (runJobs (traced bus) base js (st, (s, log))).2.2,
      e ∈ log ∨ ∃ j ∈ js, e.addr = (base + j.1) % 4294967296 := by
  induction js generalizing st s log with
  | nil => intro e he; exact Or.inl he
  | cons j js ih =>
    intro e he
    simp only [runJobs, verifyStep_traced] at he
    rcases ih _ _ _ e he with h | ⟨k, hk, hka⟩
    · rw [List.mem_append] at h
      rcases h with h | h
      · exact Or.inl h
      · right
        refine ⟨j, List.mem_cons_self _ _, ?_⟩
        simp only [tripOps, List.mem_cons, List.mem_singleton, List.not_mem_nil, or_false] at h
        rcases h with rfl | rfl <;> rfl
    · exact Or.inr ⟨k, List.mem_cons_of_mem _ hk, hka⟩

/-- Position `i * k + j` of `k`-element blocks laid end to end is position `j`
of block `i`. -/
theorem flatMap_blocks_index {α β : Type} (f : α → List β) (k : Nat) (offs : List α)
    (hk : ∀ o ∈ offs, (f o).length = k) (i j : Nat) (hj : j < k) :
    (offs.flatMap f)[i * k + j]? = (offs[i]?).bind (fun o => (f o)[j]?) := by
  induction offs generalizing i with
  | nil => simp
  | cons o os ih =>
    have hlen : (f o).length = k := hk o (List.mem_cons_self _ _)
    have hk2 : ∀ x ∈ os, (f x).length = k := fun x hx => hk x (List.mem_cons_of_mem _ hx)
    rw [List.flatMap_cons]
    cases i with
    | zero =>
      rw [List.getElem?_append_left (by omega)]
      simp
    | succ i =>
      rw [List.getElem?_append_right (by rw [hlen]; nlinarith)]
      have e : (i + 1) * k + j - (f o).length = i * k + j := by
        rw [hlen, Nat.add_mul]; omega
      rw [e, ih hk2 i]
      simp

/-- Among the writes of the jobs, those addressed to one register are the
writes of the patterns at that register's offset. -/
theorem writes_at_register (base o : Nat) (patterns : List (Nat → Nat)) (offs : List Nat)
    (hnd : offs.Nodup)
    (hinj : ∀ x ∈ offs, (base + x) % 4294967296 = (base + o) % 4294967296 → x = o) :
    ((jobs patterns offs).map (writeOp base)).filter
        (fun e => decide (e.addr = (base + o) % 4294967296)) =
      if o ∈ offs then patterns.map (fun p => writeOp base (o, p)) else [] := by
  induction offs with
  | nil => simp [jobs]
  | cons x xs ih =>
    have hx : x ∉ xs := (List.nodup_cons.mp hnd).1
    have ih2 := ih (List.nodup_cons.mp hnd).2 (fun y hy => hinj y (List.mem_cons_of_mem _ hy))
    have hjobs : jobs patterns (x :: xs) = patterns.map (fun p => (x, p)) ++ jobs patterns xs := by
      simp [jobs]
    rw [hjobs, List.map_append, List.filter_append, ih2, List.map_map]
    by_cases hxo : x = o
    · subst hxo
      have hall : (List.map (writeOp base ∘ fun p => (x, p)) patterns).filter
          (fun e => decide (e.addr = (base + x) % 4294967296)) =
          List.map (writeOp base ∘ fun p => (x, p)) patterns := by
        rw [List.filter_eq_self]
        intro e he
        rw [List.mem_map] at he
        obtain ⟨p, _, rfl⟩ := he
        simp [writeOp, BusOp.addr]
      rw [hall]
      simp [hx, Function.comp_def]
    · have hnone : (List.map (writeOp base ∘ fun p => (x, p)) patterns).filter
          (fun e => decide (e.addr = (base + o) % 4294967296)) = [] := by
        rw [List.filter_eq_nil_iff]
        intro e he
        rw [List.mem_map] at he
        obtain ⟨p, _, rfl⟩ := he
        have : (base + x) % 4294967296 ≠ (base + o) % 4294967296 :=
          fun h => hxo (hinj x (List.mem_cons_self _ _) h)
        simpa [writeOp, BusOp.addr] using this
      rw [hnone]
      have : (o ∈ x :: xs) ↔ o ∈ xs := by
        rw [List.mem_cons]
        constructor
        · rintro (h | h)
          · exact absurd h.symm hxo
          · exact h
        · exact Or.inr
      simp only [this, List.nil_append]

/-- Claim C1: for every base address and every simulated device,
`DESIP_Reg_SelfTest(base)` returns `XST_SUCCESS` if and only if, for each of the
16 register offsets and each test pattern applied, the value read back from
`base + offset` equals the value just written there; otherwise it returns
`XST_FAILURE`. The bus traffic of the run is a sequence of `16 * patterns.length`
round trips (a write followed at once by a read of the same address), one per
(offset, pattern) pair; `vs` are the values read back, in order. -/
theorem C1_selftest_success_iff {σ : Type} (bus : Bus σ) (patterns : List (Nat → Nat))
    (base : Nat) (s : σ) :
    ∃ vs : List Nat, vs.length = 16 * patterns.length ∧
      (DESIP_Reg_SelfTest (traced bus) patterns base (s, [])).2.2 =
        (List.zip (jobs patterns regOffsets) vs).flatMap (tripOps base) ∧
      (∀ o ∈ regOffsets, ∀ p ∈ patterns, (o, p) ∈ jobs patterns regOffsets) ∧
      ((DESIP_Reg_SelfTest bus patterns base s).1 = XST_SUCCESS ↔
        ∀ jv ∈ List.zip (jobs patterns regOffsets) vs, jv.2 = u32 (jv.1.2 jv.1.1)) ∧
      ((DESIP_Reg_SelfTest bus patterns base s).1 ≠ XST_SUCCESS →
        (DESIP_Reg_SelfTest bus patterns base s).1 = XST_FAILURE) := by
  obtain ⟨vs, hlen, hlog, hst⟩ :=
    runJobs_traced_log bus base (jobs patterns regOffsets) XST_SUCCESS s []
  have hrun := (runJobs_traced_run bus base (jobs patterns regOffsets) XST_SUCCESS s []).1
  refine ⟨vs, ?_, ?_, ?_, ?_, ?_⟩
  · rw [hlen, jobs_length]; rfl
  · rw [selfTest_eq_runJobs, hlog, List.nil_append]
  · intro o ho p hp
    exact (mem_jobs patterns regOffsets (o, p)).mpr ⟨ho, hp⟩
  · rw [selfTest_eq_runJobs, ← hrun, hst]
    simp
  · intro h
    cases hres : (DESIP_Reg_SelfTest bus patterns base s).1 with
    | XST_SUCCESS => exact absurd hres h
    | XST_FAILURE => rfl

/-- Claim C7: for every base address and device, every register access made by
`DESIP_Reg_SelfTest(base)` targets `base + o` (32-bit sum) for an offset `o` of
the table. The writes of the sweep are, in order, one write per pattern at each
table offset: `16 * patterns.length` writes in all; the writes of pattern number
`j` (one write phase) are the 16 writes at positions `i * patterns.length + j`,
`i = 0..15`, the `i`-th going to offset `4 * i`; and the writes addressed to
the register of a table offset are exactly one per pattern. -/
theorem C7_sweep_accesses {σ : Type} (bus : Bus σ) (patterns : List (Nat → Nat))
    (base : Nat) (s : σ) :
    (∀ e ∈ (DESIP_Reg_SelfTest (traced bus) patterns base (s, [])).2.2,
        ∃ o ∈ regOffsets, e.addr = (base + o) % 4294967296) ∧
    (DESIP_Reg_SelfTest (traced bus) patterns base (s, [])).2.2.filter BusOp.isWrite =
      regOffsets.flatMap (fun o => patterns.map (fun p =>
        BusOp.write ((base + o) % 4294967296) (u32 (p o)))) ∧
    ((DESIP_Reg_SelfTest (traced bus) patterns base (s, [])).2.2.filter BusOp.isWrite).length =
      16 * patterns.length ∧
    (∀ i j : Nat, i < 16 → ∀ p, patterns[j]? = some p →
      ((DESIP_Reg_SelfTest (traced bus) patterns base (s, [])).2.2.filter BusOp.isWrite)[
          i * patterns.length + j]? =
        some (BusOp.write ((base + 4 * i) % 4294967296) (u32 (p (4 * i))))) ∧
    (∀ o ∈ regOffsets,
      ((DESIP_Reg_SelfTest (traced bus) patterns base (s, [])).2.2.filter BusOp.isWrite).filter
          (fun e => decide (e.addr = (base + o) % 4294967296)) =
        patterns.map (fun p => BusOp.write ((base + o) % 4294967296) (u32 (p o)))) := by
  have hw : (DESIP_Reg_SelfTest (traced bus) patterns base (s, [])).2.2.filter BusOp.isWrite =
      (jobs patterns regOffsets).map (writeOp base) := by
    rw [selfTest_eq_runJobs, runJobs_traced_writes]
    simp
  have hflat : (jobs patterns regOffsets).map (writeOp base) =
      regOffsets.flatMap (fun o => patterns.map (fun p =>
        BusOp.write ((base + o) % 4294967296) (u32 (p o)))) := by
    simp [jobs, List.map_flatMap, writeOp, Function.comp_def]
  refine ⟨?_, ?_, ?_, ?_, ?_⟩
  · intro e he
    rw [selfTest_eq_runJobs] at he
    rcases runJobs_traced_addr bus base _ _ _ _ e he with h | ⟨j, hj, hja⟩
    · cases h
    · exact ⟨j.1, ((mem_jobs _ _ j).mp hj).1, hja⟩
  · rw [hw, hflat]
  · rw [hw, List.length_map, jobs_length]; rfl
  · intro i j hi p hp
    have hjlt : j < patterns.length := by
      rcases Nat.lt_or_ge j patterns.length with h | h
      · exact h
      · rw [List.getElem?_eq_none h] at hp; cases hp
    rw [hw, hflat, flatMap_blocks_index _ patterns.length regOffsets
      (fun o _ => by simp) i j hjlt, (regOffsets_getElem_some i (4 * i)).mpr ⟨hi, rfl⟩]
    simp [List.getElem?_map, hp]
  · intro o ho
    rw [hw, writes_at_register base o patterns regOffsets (by decide)
      (fun x hx h => by
        by_contra hne
        exact (regAddr_apart base x o hx ho hne).1 h), if_pos ho]
    simp [writeOp]

end DESIP
